import Mathlib

/-!
Verification development for the advanced-vector repository
(src/advanced-vector/vector.h).

The file gives a shallow embedding of the two C++ templates of the
repository:

* `RawMemory<T>`  — a raw buffer of `capacity_` uninitialized slots
  (lines 8-71); and
* `Vector<T>`     — the growable array built on it (lines 73-355).

The observable state of a `Vector<T>` is the list of its live elements
(slots `[0, size_)`) together with the capacity of its buffer; the model
`Vec` below records exactly these.  Each operation of the model is
translated from the body of the corresponding member function; line
numbers of vector.h are cited at each definition.  Standard library
calls (`std::uninitialized_copy_n`, `std::move_backward`, ...) are
modelled by their documented net effect on the element sequence.

`if constexpr` capability dispatch on the element type
(`std::is_nothrow_move_constructible_v<T>`, etc.) is modelled by the
`Caps` record of the four queried traits; exception behaviour of
element operations is modelled separately (see `VecC` further down).
-/

namespace AdvVector

/-- Capability set of an element type `T`, as queried by the
`if constexpr` conditions of vector.h (lines 93, 164, 195, 216, 247,
304, 318, 337). -/
structure Caps where
  nothrowMoveCtor : Bool
  copyCtorable : Bool
  nothrowMoveAssign : Bool
  copyAssignable : Bool
deriving DecidableEq

/-- Relocation policy of the growth paths and of the copy constructor:
move construction is used exactly when
`std::is_nothrow_move_constructible_v<T> || !std::is_copy_constructible_v<T>`
(lines 93, 164, 195, 216, 247, 304). -/
def relocUsesMove (c : Caps) : Bool := c.nothrowMoveCtor || !c.copyCtorable

/-- Shifting policy of the non-growth branch of `Vector::Emplace`:
move operations are used exactly when
`std::is_nothrow_move_assignable_v<T> || !std::is_copy_assignable_v<T>`
(line 318). -/
def shiftUsesMove (c : Caps) : Bool := c.nothrowMoveAssign || !c.copyAssignable

/-- Observable state of a `Vector<T>`: the live elements of slots
`[0, size_)` (so `Size()` is `elems.length`) and the buffer capacity
`data_.Capacity()`.  What the buffer holds beyond the live range is
not recorded at this level; `VecB` further down models the buffer
slot by slot. -/
structure Vec (α : Type) where
  elems : List α
  capacity : Nat
deriving DecidableEq

variable {α : Type}

/-- Vector::Size, line 105. -/
def Vec.size (v : Vec α) : Nat := v.elems.length

/-- Default constructor, line 76: null buffer, size 0, capacity 0. -/
def Vec.empty : Vec α := ⟨[], 0⟩

/-- Vector::Vector(size_t), lines 78-83: `size` value-constructed
elements in a buffer of exactly `size` slots; `dflt` is the
default-constructed value of the element type. -/
def Vec.sizeConstruct (n : Nat) (dflt : α) : Vec α := ⟨List.replicate n dflt, n⟩

/-- Copy constructor, lines 89-99: a fresh buffer of `other.size_`
slots, the `size_` source elements relocated into it in order.  (The
source is `const`, so the `uninitialized_move_n` arm reads through
`const T*` and cannot modify it; both arms reproduce the source
values.) -/
def Vec.copyConstruct (src : Vec α) : Vec α := ⟨src.elems, src.elems.length⟩

/-- Move constructor, lines 101-103: the new object starts in the
default state (null buffer, capacity 0, size 0) and swaps with
`other`; result is `(new object, state of other afterwards)`. -/
def Vec.moveConstruct (src : Vec α) : Vec α × Vec α := (⟨src.elems, src.capacity⟩, ⟨[], 0⟩)

/-- Vector::Swap, lines 153-156: exchanges sizes and buffers. -/
def Vec.swapOp (a b : Vec α) : Vec α × Vec α := (b, a)

/-- Copy assignment, lines 122-143.  `selfAlias` models the pointer
comparison `this != &rhs` (line 123; callers instantiate it with
`true` only when `dst` and `rhs` are the same object).  If rhs does
not fit, copy-and-swap via the copy constructor (lines 124-127);
otherwise the storage is reused: trailing elements are
copy-constructed or destroyed and the common prefix copy-assigned,
leaving exactly rhs's values at the same capacity (lines 128-140). -/
def Vec.assignCopy (dst rhs : Vec α) (selfAlias : Bool) : Vec α :=
  if selfAlias then dst
  else if dst.capacity < rhs.elems.length then Vec.copyConstruct rhs
  else ⟨rhs.elems, dst.capacity⟩

/-- Move assignment, lines 145-151: unless self-assigning, sets own
size to 0 and swaps with rhs; result is `(target, rhs afterwards)`.
The target takes rhs's elements and capacity; rhs is left with size 0
and the target's old buffer.  Caution: no element destructor runs, so
the target's old elements remain constructed in that buffer beyond
rhs's new size and are never destroyed; this is invisible here (reads
stop at `size_`) and is captured by `moveAssignB` further down. -/
def Vec.assignMove (dst rhs : Vec α) (selfAlias : Bool) : Vec α × Vec α :=
  if selfAlias then (dst, rhs)
  else (⟨rhs.elems, rhs.capacity⟩, ⟨[], dst.capacity⟩)

/-- Vector::Reserve, lines 158-172: no-op when `new_capacity` does not
exceed the current capacity; otherwise a block of exactly
`new_capacity` slots is allocated, the live elements are relocated in
order, the originals destroyed, and the new block adopted. -/
def Vec.reserve (v : Vec α) (k : Nat) : Vec α :=
  if k ≤ v.capacity then v else ⟨v.elems, k⟩

/-- Vector::Resize, lines 174-186: growing reserves capacity if needed
and value-constructs the new trailing slots; shrinking destroys the
trailing elements.  `dflt` is the default-constructed value. -/
def Vec.resize (v : Vec α) (dflt : α) (n : Nat) : Vec α :=
  if v.elems.length < n then
    ⟨(if v.capacity < n then v.reserve n else v).elems ++
        List.replicate (n - v.elems.length) dflt,
      (if v.capacity < n then v.reserve n else v).capacity⟩
  else ⟨v.elems.take n, v.capacity⟩

/-- Vector::PushBack (both overloads, lines 188-228): at capacity, a
new block of `size_ == 0 ? 1 : size_ * 2` slots is allocated, the new
element constructed at index `size_`, the old elements relocated to
the front, and the block adopted; otherwise the element is constructed
into the next free slot.  Both branches append `x` after the existing
elements; `++size_` is the final length increment. -/
def Vec.pushBack (v : Vec α) (x : α) : Vec α :=
  if v.elems.length = v.capacity then
    ⟨v.elems ++ [x], if v.elems.length = 0 then 1 else v.elems.length * 2⟩
  else ⟨v.elems ++ [x], v.capacity⟩

/-- Vector::PopBack, lines 230-237: no-op when empty, else destroys
the last live element and decrements the size. -/
def Vec.popBack (v : Vec α) : Vec α :=
  if v.elems.length = 0 then v else ⟨v.elems.take (v.elems.length - 1), v.capacity⟩

/-- Vector::EmplaceBack, lines 239-260: same state change as PushBack
(with the element constructed from the arguments); the returned
reference `data_[size_ - 1]` is the slot at the old size, returned
here as its index. -/
def Vec.emplaceBack (v : Vec α) (x : α) : Vec α × Nat := (v.pushBack x, v.elems.length)

/-- Net effect on the element sequence of the non-growth branch of
`Vector::Emplace` (lines 315-328), for insertion index `d < l.length`:
`uninitialized_move_n(end() - 1, 1, end())` relocates the last element
into the one-past-end slot; `move_backward(pos, end() - 1, end())`
shifts the suffix `[d, length - 1)` one slot right (its net effect on
the sequence, dest range `[d + 1, length)` filled from the source in
backward order); finally the value held in the one-slot holder
`new_value` is assigned into slot `d`.  (The copy arm of line 323-327
performs the same net sequence change with copy operations.) -/
def emplaceShiftElems (l : List α) (d : Nat) (x : α) : List α :=
  let s1 := l ++ l.drop (l.length - 1)
  let s2 := s1.take (d + 1) ++ (s1.drop d).take (s1.length - 1 - d)
  s2.set d x

/-- Vector::Emplace, lines 289-334, at insertion index
`d = distance(begin(), pos)` (line 292).  When `distance(pos, cend())`
is 0 the call delegates to EmplaceBack (lines 293-296); at capacity a
new block of `size_ == 0 ? 1 : size_ * 2` slots receives the new
element at index `d`, the prefix at `[0, d)` and the suffix at
`[d + 1, size_ + 1)` (lines 298-313); otherwise the non-growth shift
of `emplaceShiftElems` runs in place (lines 315-329).  The returned
iterator `data_.GetAddress() + cursor` is index `d` of the final
buffer (line 333). -/
def Vec.emplace (v : Vec α) (d : Nat) (x : α) : Vec α × Nat :=
  if v.elems.length - d = 0 then ((v.emplaceBack x).1, d)
  else if v.elems.length = v.capacity then
    (⟨v.elems.take d ++ x :: v.elems.drop d,
      if v.elems.length = 0 then 1 else v.elems.length * 2⟩, d)
  else (⟨emplaceShiftElems v.elems d x, v.capacity⟩, d)

/-- Vector::Insert (both overloads), lines 345-350: delegates to
Emplace. -/
def Vec.insert (v : Vec α) (d : Nat) (x : α) : Vec α × Nat := v.emplace d x

/-- Vector::Erase, lines 335-344, at index `d < size`: shifts the
elements after `pos` one slot left, decrements the size and destroys
the now-duplicate last slot; returns `pos`, i.e. index `d`. -/
def Vec.eraseAt (v : Vec α) (d : Nat) : Vec α × Nat :=
  (⟨v.elems.take d ++ v.elems.drop (d + 1), v.capacity⟩, d)

/-- Element-level operations (constructions, copies, moves of `T`)
performed by the move constructor: `Swap` (lines 101-103, 153-156,
41-44) only exchanges the raw pointer and two integers, so none. -/
def moveConstructElemOps (_ : Vec α) : Nat := 0

/-- Element-level operations performed by the copy constructor: one
relocation per source element (lines 94, 97). -/
def copyConstructElemOps (v : Vec α) : Nat := v.elems.length

/-- Repeated `PushBack` from the default-constructed vector (the
capacity-sequence experiment of the spec), over `T = int`. -/
def pushN : Nat → Vec Nat
  | 0 => Vec.empty
  | n + 1 => (pushN n).pushBack 0

/-- PushBack appends the new value after the existing elements in both
branches of lines 188-207. -/
theorem pushBack_elems (v : Vec α) (x : α) : (v.pushBack x).elems = v.elems ++ [x] := by
  unfold Vec.pushBack
  split <;> rfl

/-- Capacity of PushBack in the growth branch (`size_ == Capacity()`,
line 189): the literal `size_ == 0 ? 1 : size_ * 2` of line 191. -/
theorem pushBack_capacity_eq (v : Vec α) (x : α) (h : v.elems.length = v.capacity) :
    (v.pushBack x).capacity = if v.elems.length = 0 then 1 else v.elems.length * 2 := by
  unfold Vec.pushBack
  rw [if_pos h]

/-- Capacity of PushBack in the non-growth branch: unchanged. -/
theorem pushBack_capacity_ne (v : Vec α) (x : α) (h : v.elems.length ≠ v.capacity) :
    (v.pushBack x).capacity = v.capacity := by
  unfold Vec.pushBack
  rw [if_neg h]

/-- Size after `n` PushBacks from empty is `n`. -/
theorem pushN_size (n : Nat) : (pushN n).size = n := by
  induction n with
  | zero => rfl
  | succ n ih =>
    simp only [pushN, Vec.size, pushBack_elems, List.length_append, List.length_singleton]
    simp only [Vec.size] at ih
    omega

/-- Capacity after `n ≥ 1` PushBacks from empty is the least power of
two that is at least `n`. -/
theorem pushN_capacity (n : Nat) (hn : 1 ≤ n) :
    (pushN n).capacity = 2 ^ Nat.clog 2 n := by
  induction n with
  | zero => exact absurd hn (by omega)
  | succ n ih =>
    rcases Nat.eq_zero_or_pos n with h0 | hpos
    · subst h0
      show (pushN 1).capacity = 2 ^ Nat.clog 2 1
      rw [Nat.clog_one_right]
      rfl
    · have hk := ih hpos
      have hlen : (pushN n).elems.length = n := pushN_size n
      have hle : n ≤ 2 ^ Nat.clog 2 n := Nat.le_pow_clog (by omega) n
      simp only [pushN]
      rcases Nat.lt_or_ge n (2 ^ Nat.clog 2 n) with hlt | hge
      · have hne : (pushN n).elems.length ≠ (pushN n).capacity := by
          rw [hlen, hk]
          omega
        rw [pushBack_capacity_ne _ _ hne, hk]
        have h1 : Nat.clog 2 (n + 1) ≤ Nat.clog 2 n :=
          (Nat.le_pow_iff_clog_le (by omega)).mp (by omega)
        have h2 : Nat.clog 2 n ≤ Nat.clog 2 (n + 1) := Nat.clog_mono_right 2 (by omega)
        have : Nat.clog 2 (n + 1) = Nat.clog 2 n := by omega
        rw [this]
      · have heq : n = 2 ^ Nat.clog 2 n := by omega
        have hcap : (pushN n).elems.length = (pushN n).capacity := by
          rw [hlen, hk]
          omega
        rw [pushBack_capacity_eq _ _ hcap, hlen, if_neg (by omega)]
        have h1 : Nat.clog 2 (n + 1) ≤ Nat.clog 2 n + 1 :=
          (Nat.le_pow_iff_clog_le (by omega)).mp (by rw [pow_succ]; omega)
        have h2 : ¬ Nat.clog 2 (n + 1) ≤ Nat.clog 2 n := by
          intro hcon
          have := (Nat.le_pow_iff_clog_le (b := 2) (by omega)).mpr hcon
          omega
        have hclog : Nat.clog 2 (n + 1) = Nat.clog 2 n + 1 := by omega
        rw [hclog, pow_succ]
        omega

/-- C3: when an operation needs one more slot than the capacity
provides (`size_ == Capacity()`), the new block has capacity exactly
`max 1 (2 * oldCapacity)`; a PushBack below capacity leaves the
capacity unchanged; consequently repeated PushBack from empty yields
capacity `2 ^ clog2 n` after `n ≥ 1` pushes, i.e. the sequence
1, 2, 4, 8, ... doubling exactly when the size first exceeds the
previous capacity. -/
theorem growth_doubling :
    (∀ (v : Vec Nat) (x : Nat), v.size = v.capacity →
      (v.pushBack x).capacity = max 1 (2 * v.capacity)) ∧
    (∀ (v : Vec Nat) (x : Nat), v.size < v.capacity →
      (v.pushBack x).capacity = v.capacity) ∧
    (∀ (v : Vec Nat) (d x : Nat), d ≤ v.size → v.size = v.capacity →
      (v.emplace d x).1.capacity = max 1 (2 * v.capacity)) ∧
    (∀ n : Nat, 1 ≤ n → (pushN n).capacity = 2 ^ Nat.clog 2 n) := by
  refine ⟨?_, ?_, ?_, pushN_capacity⟩
  · intro v x h
    have h' : v.elems.length = v.capacity := h
    rw [pushBack_capacity_eq v x h', h']
    rcases Nat.eq_zero_or_pos v.capacity with h0 | h0
    · simp [h0]
    · rw [if_neg (by omega)]
      omega
  · intro v x h
    have h' : v.elems.length < v.capacity := h
    exact pushBack_capacity_ne v x (by omega)
  · intro v d x _hd hfull
    have h' : v.elems.length = v.capacity := hfull
    unfold Vec.emplace
    by_cases h0 : v.elems.length - d = 0
    · rw [if_pos h0]
      show (v.pushBack x).capacity = _
      rw [pushBack_capacity_eq v x h', h']
      rcases Nat.eq_zero_or_pos v.capacity with hz | hz
      · simp [hz]
      · rw [if_neg (by omega)]
        omega
    · rw [if_neg h0, if_pos h']
      show (if v.elems.length = 0 then 1 else v.elems.length * 2) = _
      rw [if_neg (by omega)]
      omega

/-- Witness for `growth_doubling`: a full vector `⟨[7, 8], 2⟩` grows
to capacity 4, a non-full one keeps capacity 2, and three pushes from
empty give capacity 4. -/
theorem growth_doubling_witness :
    (Vec.pushBack ⟨[7, 8], 2⟩ 9).capacity = max 1 (2 * 2) ∧
    (Vec.pushBack ⟨[7], 2⟩ 9).capacity = 2 ∧
    (Vec.emplace ⟨[7, 8], 2⟩ 1 9).1.capacity = max 1 (2 * 2) ∧
    (pushN 3).capacity = 2 ^ Nat.clog 2 3 :=
  ⟨growth_doubling.1 ⟨[7, 8], 2⟩ 9 (by decide),
   growth_doubling.2.1 ⟨[7], 2⟩ 9 (by decide),
   growth_doubling.2.2.1 ⟨[7, 8], 2⟩ 1 9 (by decide) (by decide),
   growth_doubling.2.2.2 3 (by decide)⟩

/-- C5: MoveConstruct yields an object with exactly the source's
original contents and capacity, leaves the source with size 0,
performs no per-element relocation work (unlike CopyConstruct, whose
element-op count is the source size), and never fails (it is total
and the C++ constructor is `noexcept`). -/
theorem moveConstruct_spec (src : Vec Nat) :
    (Vec.moveConstruct src).1 = src ∧
    (Vec.moveConstruct src).2.size = 0 ∧
    moveConstructElemOps src = 0 ∧
    copyConstructElemOps src = src.size := by
  refine ⟨rfl, rfl, rfl, rfl⟩

/-- C9: after MoveConstruct the source is not merely size 0: its
capacity is 0 as well (the new object swapped its default-constructed
null buffer into the source). -/
theorem moveConstruct_source_reset (src : Vec Nat) :
    (Vec.moveConstruct src).2.capacity = 0 ∧ (Vec.moveConstruct src).2.size = 0 := by
  exact ⟨rfl, rfl⟩

/-- C8: self-assignment through either assignment operator leaves the
vector unchanged (the `this != &rhs` guards of lines 123 and 146). -/
theorem self_assignment_noop (v : Vec Nat) :
    Vec.assignCopy v v true = v ∧ Vec.assignMove v v true = (v, v) := by
  constructor <;> rfl

/-- C6: `Reserve k` with `k ≤ Capacity()` changes nothing; with
`k > Capacity()` it sets the capacity to exactly `k` and preserves the
size and all elements in order. -/
theorem reserve_spec (v : Vec Nat) (k : Nat) :
    (k ≤ v.capacity → v.reserve k = v) ∧
    (v.capacity < k →
      (v.reserve k).capacity = k ∧ (v.reserve k).elems = v.elems ∧
      (v.reserve k).size = v.size) := by
  constructor
  · intro h
    simp [Vec.reserve, h]
  · intro h
    simp [Vec.reserve, Nat.not_le.mpr h, Vec.size]

/-- Witness for `reserve_spec` at the vector `⟨[3, 4], 2⟩` with
`k = 2` (no-op case) and `k = 5` (growth case). -/
theorem reserve_spec_witness :
    (Vec.reserve ⟨[3, 4], 2⟩ 2 = ⟨[3, 4], 2⟩) ∧
    ((Vec.reserve ⟨[3, 4], 2⟩ 5).capacity = 5 ∧
      (Vec.reserve ⟨[3, 4], 2⟩ 5).elems = [3, 4] ∧
      (Vec.reserve ⟨[3, 4], 2⟩ 5).size = Vec.size ⟨[3, 4], 2⟩) :=
  ⟨(reserve_spec ⟨[3, 4], 2⟩ 2).1 (by decide),
   (reserve_spec ⟨[3, 4], 2⟩ 5).2 (by decide)⟩

/-- Net effect of the non-growth shift: relocating the last element to
the one-past-end slot, shifting `[d, length - 1)` right and assigning
the held value into slot `d` inserts `x` at index `d`. -/
theorem emplaceShiftElems_eq (l : List α) (d : Nat) (x : α) (hd : d < l.length) :
    emplaceShiftElems l d x = l.take d ++ x :: l.drop d := by
  show ((l ++ l.drop (l.length - 1)).take (d + 1) ++
      ((l ++ l.drop (l.length - 1)).drop d).take
        ((l ++ l.drop (l.length - 1)).length - 1 - d)).set d x =
    l.take d ++ x :: l.drop d
  have hlen1 : (l.drop (l.length - 1)).length = 1 := by
    rw [List.length_drop]
    omega
  have hs1len : (l ++ l.drop (l.length - 1)).length = l.length + 1 := by
    rw [List.length_append, hlen1]
  have htake : (l ++ l.drop (l.length - 1)).take (d + 1) = l.take (d + 1) :=
    List.take_append_of_le_length (by omega)
  have hdrop : (l ++ l.drop (l.length - 1)).drop d = l.drop d ++ l.drop (l.length - 1) :=
    List.drop_append_of_le_length (by omega)
  rw [hs1len, htake, hdrop]
  have hmid : (l.drop d ++ l.drop (l.length - 1)).take (l.length + 1 - 1 - d) = l.drop d := by
    have hdl : l.length + 1 - 1 - d = (l.drop d).length := by
      rw [List.length_drop]
      omega
    rw [hdl]
    exact List.take_left _ _
  rw [hmid]
  rw [List.set_append_left d x (by rw [List.length_take]; omega)]
  have htakes : l.take (d + 1) = l.take d ++ [l[d]] := by
    rw [List.take_succ, List.getElem?_eq_getElem hd]
    rfl
  rw [htakes]
  rw [List.set_append_right d x (by rw [List.length_take]; omega)]
  have hdd : d - (l.take d).length = 0 := by
    rw [List.length_take]
    omega
  rw [hdd, List.append_assoc]
  rfl

/-- Element at index `d` of a list with `x` inserted at `d`. -/
theorem getElem_insert_shape (l : List α) (d : Nat) (x : α) (hd : d ≤ l.length) :
    (l.take d ++ x :: l.drop d)[d]? = some x := by
  rw [List.getElem?_append_right (by rw [List.length_take]; omega)]
  have hdd : d - (l.take d).length = 0 := by
    rw [List.length_take]
    omega
  rw [hdd]
  exact List.getElem?_cons_zero

/-- C10: for every valid position `d` (`begin() ≤ pos ≤ end()`),
Emplace returns the index `d` of the newly inserted element in the
final buffer, the element sequence becomes the original with `x`
inserted at `d` (so the returned iterator designates the new element),
and Insert delegates to Emplace — including the reallocation case and
the `pos == end()` delegation to EmplaceBack. -/
theorem emplace_position (v : Vec Nat) (d : Nat) (x : Nat) (hd : d ≤ v.elems.length) :
    (v.emplace d x).2 = d ∧
    (v.emplace d x).1.elems = v.elems.take d ++ x :: v.elems.drop d ∧
    ((v.emplace d x).1.elems)[d]? = some x ∧
    v.insert d x = v.emplace d x := by
  have hsnd : (v.emplace d x).2 = d := by
    unfold Vec.emplace
    split
    · rfl
    · split <;> rfl
  have helems : (v.emplace d x).1.elems = v.elems.take d ++ x :: v.elems.drop d := by
    unfold Vec.emplace
    by_cases h0 : v.elems.length - d = 0
    · rw [if_pos h0]
      have hdl : d = v.elems.length := by omega
      show (v.pushBack x).elems = _
      rw [pushBack_elems, hdl, List.take_length, List.drop_length]
    · rw [if_neg h0]
      by_cases hcap : v.elems.length = v.capacity
      · rw [if_pos hcap]
      · rw [if_neg hcap]
        exact emplaceShiftElems_eq v.elems d x (by omega)
  refine ⟨hsnd, helems, ?_, rfl⟩
  rw [helems]
  exact getElem_insert_shape v.elems d x hd

/-- Witness for `emplace_position`: inserting 9 at index 1 of
`⟨[1, 2, 3], 4⟩`. -/
theorem emplace_position_witness :
    (Vec.emplace ⟨[1, 2, 3], 4⟩ 1 9).2 = 1 ∧
    (Vec.emplace ⟨[1, 2, 3], 4⟩ 1 9).1.elems =
      List.take 1 [1, 2, 3] ++ 9 :: List.drop 1 [1, 2, 3] ∧
    ((Vec.emplace ⟨[1, 2, 3], 4⟩ 1 9).1.elems)[1]? = some 9 ∧
    Vec.insert ⟨[1, 2, 3], 4⟩ 1 9 = Vec.emplace ⟨[1, 2, 3], 4⟩ 1 9 :=
  emplace_position ⟨[1, 2, 3], 4⟩ 1 9 (by decide)

/-- Element-level operation kinds of `T` appearing in vector.h. -/
inductive EOp where
  | constructOp
  | moveCtorOp
  | copyCtorOp
  | moveAssignOp
  | copyAssignOp
deriving DecidableEq

/-- Trace-instrumented non-growth branch of Emplace (lines 315-329):
the new value is constructed into a one-slot holder (`new_value`,
lines 316-317); then, under the policy of line 318
(`is_nothrow_move_assignable_v<T> || !is_copy_assignable_v<T>`), the
last element is relocated into the one-past-end slot by move (or copy)
construction, the suffix `[d, size_ - 1)` is shifted one slot right by
`size_ - 1 - d` move (or copy) assignments in backward order, and the
held value is move- (or copy-) assigned into slot `d`
(lines 319-326).  Returns the new state and the list of element-level
operations performed. -/
def emplaceNoGrow (c : Caps) (v : Vec α) (d : Nat) (x : α) : Vec α × List EOp :=
  if c.nothrowMoveAssign || !c.copyAssignable then
    (⟨emplaceShiftElems v.elems d x, v.capacity⟩,
      EOp.constructOp :: EOp.moveCtorOp ::
        (List.replicate (v.elems.length - 1 - d) EOp.moveAssignOp ++ [EOp.moveAssignOp]))
  else
    (⟨emplaceShiftElems v.elems d x, v.capacity⟩,
      EOp.constructOp :: EOp.copyCtorOp ::
        (List.replicate (v.elems.length - 1 - d) EOp.copyAssignOp ++ [EOp.copyAssignOp]))

/-- C7 counterexample: for an element type whose move construction is
non-throwing (so the growth relocation policy picks move) but whose
move assignment may throw while copy assignment exists, the non-growth
shift of Emplace performs copy operations: the policies differ, so the
shift is not governed by the move-construction policy the claim
states. -/
theorem emplace_shift_policy_cex :
    relocUsesMove ⟨true, true, false, true⟩ = true ∧
    shiftUsesMove ⟨true, true, false, true⟩ = false ∧
    EOp.copyAssignOp ∈
      (emplaceNoGrow ⟨true, true, false, true⟩ (⟨[1, 2], 3⟩ : Vec Nat) 0 9).2 := by
  decide

/-- C7 amended: for Insert/Emplace before `end()` without growth, the
suffix is shifted one slot right after constructing the new value in a
one-slot holder and relocating the last element to the one-past-end
slot, and the shift uses move operations exactly when T's move
assignment is declared non-throwing or T is not copy-assignable (the
policy of line 318), otherwise copy operations. -/
theorem emplace_shift_policy_amended (c : Caps) (v : Vec Nat) (d : Nat) (x : Nat)
    (hd : d < v.elems.length) (_hcap : v.elems.length < v.capacity) :
    (emplaceNoGrow c v d x).1.elems = v.elems.take d ++ x :: v.elems.drop d ∧
    (emplaceNoGrow c v d x).1.capacity = v.capacity ∧
    ((EOp.copyCtorOp ∉ (emplaceNoGrow c v d x).2 ∧
      EOp.copyAssignOp ∉ (emplaceNoGrow c v d x).2) ↔ shiftUsesMove c = true) ∧
    ((EOp.moveCtorOp ∉ (emplaceNoGrow c v d x).2 ∧
      EOp.moveAssignOp ∉ (emplaceNoGrow c v d x).2) ↔ shiftUsesMove c = false) := by
  unfold emplaceNoGrow
  by_cases hpol : (c.nothrowMoveAssign || !c.copyAssignable) = true
  · rw [if_pos hpol]
    refine ⟨emplaceShiftElems_eq v.elems d x hd, rfl, ?_, ?_⟩
    · constructor
      · intro _
        exact hpol
      · intro _
        constructor <;> simp [List.mem_replicate]
    · constructor
      · intro h
        exact absurd (by simp : EOp.moveCtorOp ∈ EOp.constructOp :: EOp.moveCtorOp ::
          (List.replicate (v.elems.length - 1 - d) EOp.moveAssignOp ++ [EOp.moveAssignOp])) h.1
      · intro h
        have : shiftUsesMove c = true := hpol
        rw [this] at h
        exact absurd h (by simp)
  · rw [if_neg hpol]
    have hpol2 : shiftUsesMove c = false := by
      unfold shiftUsesMove
      exact Bool.not_eq_true _ ▸ Bool.of_not_eq_true hpol
    refine ⟨emplaceShiftElems_eq v.elems d x hd, rfl, ?_, ?_⟩
    · constructor
      · intro h
        exact absurd (by simp : EOp.copyCtorOp ∈ EOp.constructOp :: EOp.copyCtorOp ::
          (List.replicate (v.elems.length - 1 - d) EOp.copyAssignOp ++ [EOp.copyAssignOp])) h.1
      · intro h
        rw [hpol2] at h
        exact absurd h (by simp)
    · constructor
      · intro _
        exact hpol2
      · intro _
        constructor <;> simp [List.mem_replicate]

/-- Witness for `emplace_shift_policy_amended`: a nothrow-move-assignable
element type inserting 9 at index 0 of `⟨[1, 2], 3⟩`. -/
theorem emplace_shift_policy_amended_witness :
    (emplaceNoGrow ⟨false, true, true, true⟩ (⟨[1, 2], 3⟩ : Vec Nat) 0 9).1.elems =
      List.take 0 [1, 2] ++ 9 :: List.drop 0 [1, 2] ∧
    (emplaceNoGrow ⟨false, true, true, true⟩ (⟨[1, 2], 3⟩ : Vec Nat) 0 9).1.capacity = 3 ∧
    ((EOp.copyCtorOp ∉ (emplaceNoGrow ⟨false, true, true, true⟩ (⟨[1, 2], 3⟩ : Vec Nat) 0 9).2 ∧
      EOp.copyAssignOp ∉ (emplaceNoGrow ⟨false, true, true, true⟩ (⟨[1, 2], 3⟩ : Vec Nat) 0 9).2) ↔
      shiftUsesMove ⟨false, true, true, true⟩ = true) ∧
    ((EOp.moveCtorOp ∉ (emplaceNoGrow ⟨false, true, true, true⟩ (⟨[1, 2], 3⟩ : Vec Nat) 0 9).2 ∧
      EOp.moveAssignOp ∉ (emplaceNoGrow ⟨false, true, true, true⟩ (⟨[1, 2], 3⟩ : Vec Nat) 0 9).2) ↔
      shiftUsesMove ⟨false, true, true, true⟩ = false) :=
  emplace_shift_policy_amended ⟨false, true, true, true⟩ ⟨[1, 2], 3⟩ 0 9 (by decide) (by decide)

/-- The size-vs-capacity part of the representation invariant of
`Vector<T>`: the size never exceeds the buffer capacity.  (`elems` is
the list of values of the live range `[0, size_)`; whether the buffer
holds further constructed elements beyond `size_` is a slot-level
question, settled at `moveAssignB` further down.) -/
def Vec.WF (v : Vec α) : Prop := v.elems.length ≤ v.capacity

theorem WF_empty : (Vec.empty (α := α)).WF := Nat.le_refl 0

theorem WF_sizeConstruct (n : Nat) (dflt : α) : (Vec.sizeConstruct n dflt).WF := by
  simp [Vec.WF, Vec.sizeConstruct]

theorem WF_copyConstruct (v : Vec α) : (Vec.copyConstruct v).WF := Nat.le_refl _

theorem WF_moveConstruct (v : Vec α) (h : v.WF) :
    (Vec.moveConstruct v).1.WF ∧ (Vec.moveConstruct v).2.WF := ⟨h, Nat.le_refl 0⟩

theorem WF_assignCopy (dst rhs : Vec α) (h1 : dst.WF) (_h2 : rhs.WF) (sa : Bool) :
    (Vec.assignCopy dst rhs sa).WF := by
  have h1' : dst.elems.length ≤ dst.capacity := h1
  unfold Vec.WF Vec.assignCopy
  split
  · exact h1
  · split
    · exact Nat.le_refl _
    · show rhs.elems.length ≤ dst.capacity
      omega

theorem WF_assignMove (dst rhs : Vec α) (h1 : dst.WF) (h2 : rhs.WF) (sa : Bool) :
    (Vec.assignMove dst rhs sa).1.WF ∧ (Vec.assignMove dst rhs sa).2.WF := by
  unfold Vec.WF Vec.assignMove
  split
  · exact ⟨h1, h2⟩
  · exact ⟨h2, Nat.zero_le _⟩

theorem WF_swapOp (a b : Vec α) (h1 : a.WF) (h2 : b.WF) :
    (Vec.swapOp a b).1.WF ∧ (Vec.swapOp a b).2.WF := ⟨h2, h1⟩

theorem WF_reserve (v : Vec α) (k : Nat) (h : v.WF) : (v.reserve k).WF := by
  have h' : v.elems.length ≤ v.capacity := h
  unfold Vec.WF Vec.reserve
  split
  · exact h
  · show v.elems.length ≤ k
    omega

theorem WF_resize (v : Vec α) (dflt : α) (n : Nat) (h : v.WF) : (v.resize dflt n).WF := by
  have h' : v.elems.length ≤ v.capacity := h
  unfold Vec.WF Vec.resize
  by_cases h1 : v.elems.length < n
  · rw [if_pos h1]
    by_cases h2 : v.capacity < n
    · rw [if_pos h2]
      have e1 : v.reserve n = ⟨v.elems, n⟩ := by
        unfold Vec.reserve
        rw [if_neg (by omega)]
      rw [e1]
      show (v.elems ++ List.replicate (n - v.elems.length) dflt).length ≤ n
      simp only [List.length_append, List.length_replicate]
      omega
    · rw [if_neg h2]
      show (v.elems ++ List.replicate (n - v.elems.length) dflt).length ≤ v.capacity
      simp only [List.length_append, List.length_replicate]
      omega
  · rw [if_neg h1]
    show (v.elems.take n).length ≤ v.capacity
    simp only [List.length_take]
    omega

theorem WF_pushBack (v : Vec α) (x : α) (h : v.WF) : (v.pushBack x).WF := by
  have h' : v.elems.length ≤ v.capacity := h
  unfold Vec.WF Vec.pushBack
  by_cases hc : v.elems.length = v.capacity
  · rw [if_pos hc]
    show (v.elems ++ [x]).length ≤ if v.elems.length = 0 then 1 else v.elems.length * 2
    by_cases h0 : v.elems.length = 0
    · rw [if_pos h0]
      simp only [List.length_append, List.length_singleton]
      omega
    · rw [if_neg h0]
      simp only [List.length_append, List.length_singleton]
      omega
  · rw [if_neg hc]
    show (v.elems ++ [x]).length ≤ v.capacity
    simp only [List.length_append, List.length_singleton]
    omega

theorem WF_popBack (v : Vec α) (h : v.WF) : v.popBack.WF := by
  have h' : v.elems.length ≤ v.capacity := h
  unfold Vec.WF Vec.popBack
  split
  · exact h
  · show (v.elems.take (v.elems.length - 1)).length ≤ v.capacity
    simp only [List.length_take]
    omega

theorem WF_emplace (v : Vec α) (d : Nat) (x : α) (h : v.WF) : (v.emplace d x).1.WF := by
  have h' : v.elems.length ≤ v.capacity := h
  unfold Vec.emplace
  by_cases h0 : v.elems.length - d = 0
  · rw [if_pos h0]
    exact WF_pushBack v x h
  · rw [if_neg h0]
    by_cases hc : v.elems.length = v.capacity
    · rw [if_pos hc]
      show (v.elems.take d ++ x :: v.elems.drop d).length ≤
        if v.elems.length = 0 then 1 else v.elems.length * 2
      rw [if_neg (by omega)]
      simp only [List.length_append, List.length_take, List.length_cons, List.length_drop]
      omega
    · rw [if_neg hc]
      show (emplaceShiftElems v.elems d x).length ≤ v.capacity
      rw [emplaceShiftElems_eq v.elems d x (by omega)]
      simp only [List.length_append, List.length_take, List.length_cons, List.length_drop]
      omega

theorem WF_eraseAt (v : Vec α) (e : Nat) (h : v.WF) : (v.eraseAt e).1.WF := by
  have h' : v.elems.length ≤ v.capacity := h
  show (v.elems.take e ++ v.elems.drop (e + 1)).length ≤ v.capacity
  simp only [List.length_append, List.length_take, List.length_drop]
  omega

/-- State of one buffer slot for the slot-level analysis: a live
(constructed) element, or uninitialized/destroyed memory. -/
inductive Slot (α : Type) where
  | live : α → Slot α
  | uninit : Slot α
deriving DecidableEq

/-- Whether a slot holds a live element. -/
def Slot.isLive : Slot α → Bool
  | Slot.live _ => true
  | Slot.uninit => false

/-- Slot-level state of a `Vector<T>`: the full buffer, one entry per
slot (so `slots.length` is the capacity), together with `size_`.
This refines `Vec` by recording what the buffer holds beyond the live
range. -/
structure VecB (α : Type) where
  slots : List (Slot α)
  size : Nat
deriving DecidableEq

/-- The representation invariant claimed for every instance after
every public operation: `size_` within capacity, slots `[0, size_)`
live, slots `[size_, capacity)` holding no live elements. -/
def VecB.invariantHolds (v : VecB α) : Prop :=
  v.size ≤ v.slots.length ∧
  (v.slots.take v.size).all Slot.isLive = true ∧
  (v.slots.drop v.size).all (fun s => !Slot.isLive s) = true

/-- Move assignment at slot level (lines 145-151): unless
self-assigning, `size_ = 0;` then `Swap(rhs)`.  No element destructor
runs and no slot changes state — only the buffer owners and the two
sizes change: the target takes rhs's buffer at rhs's former size; rhs
takes the target's old buffer, still holding the target's old
elements, at size 0. -/
def moveAssignB (dst rhs : VecB α) (selfAlias : Bool) : VecB α × VecB α :=
  if selfAlias then (dst, rhs) else (⟨rhs.slots, rhs.size⟩, ⟨dst.slots, 0⟩)

/-- Effect of `~Vector` (lines 85-87) on the buffer: destroys exactly
the first `size_` slots, then releases the raw block. -/
def dtorSlots (v : VecB α) : List (Slot α) :=
  List.replicate v.size Slot.uninit ++ v.slots.drop v.size

/-- C2: the code violates the claimed invariant.  Move-assigning a
one-element vector into a two-element vector — both satisfying the
invariant — leaves the source with `size_ = 0` while slots 0 and 1 of
its swapped-in buffer still hold the live elements 4 and 6: slots
`[size, capacity)` contain live elements.  They are also never
destroyed: the source's destructor runs `destroy_n(_, size_ = 0)` and
leaves both slots live at deallocation, so the elements leak.  The
`size_ = 0` of line 147 before the swap is the slip — a plain
`Swap(rhs)` would hand the old elements to rhs for cleanup by its
destructor. -/
theorem moveAssign_liveness_bug :
    VecB.invariantHolds (⟨[Slot.live 4, Slot.live 6], 2⟩ : VecB Nat) ∧
    VecB.invariantHolds (⟨[Slot.live 9], 1⟩ : VecB Nat) ∧
    (moveAssignB (⟨[Slot.live 4, Slot.live 6], 2⟩ : VecB Nat) ⟨[Slot.live 9], 1⟩ false).2 =
      ⟨[Slot.live 4, Slot.live 6], 0⟩ ∧
    ¬ VecB.invariantHolds (⟨[Slot.live 4, Slot.live 6], 0⟩ : VecB Nat) ∧
    dtorSlots (⟨[Slot.live 4, Slot.live 6], 0⟩ : VecB Nat) = [Slot.live 4, Slot.live 6] := by
  refine ⟨?_, ?_, rfl, ?_, rfl⟩
  · unfold VecB.invariantHolds
    exact ⟨by decide, by decide, by decide⟩
  · unfold VecB.invariantHolds
    exact ⟨by decide, by decide, by decide⟩
  · unfold VecB.invariantHolds
    intro h
    exact absurd h.2.2 (by decide)

/-- Liveness state of one constructed slot for the exception
analysis: a known value, or the valid-but-unspecified state left
behind by a successful move out of the slot. -/
inductive Cell (α : Type) where
  | val : α → Cell α
  | movedFrom : Cell α
deriving DecidableEq

/-- Vector state for the exception analysis: the constructed cells of
slots `[0, size_)` and the buffer capacity. -/
structure VecC (α : Type) where
  cells : List (Cell α)
  capacity : Nat
deriving DecidableEq

/-- Whether one relocation step of the growth paths can raise: the
copy arm always can (T's copy constructor may throw); the move arm —
taken when `relocUsesMove` — only when T's move construction is not
declared non-throwing (a move-only type with a throwing move). -/
def relocCanFail (c : Caps) : Bool := !relocUsesMove c || !c.nothrowMoveCtor

/-- Source cells after a relocation run over the first elements raised
at step `j`: with the move arm the first `j` elements were already
moved out of the old buffer and are left moved-from; with the copy arm
the source is untouched (the partial copies live in the new block and
are destroyed by `std::uninitialized_copy_n` itself on exception). -/
def damagedCells (c : Caps) (cells : List (Cell α)) (j : Nat) : List (Cell α) :=
  if relocUsesMove c then List.replicate j Cell.movedFrom ++ cells.drop j else cells

/-- Exception-instrumented Vector::Reserve (lines 158-172) for a
request `k`.  `failAt = some j` means the `j`-th fallible element
operation raises; Reserve performs one relocation per live element
(its only fallible element operations), so `j` indexes relocations,
and indices past the last operation mean no failure, as does a
non-throwing move arm.  On failure the new block is discarded before
the `data_.Swap` of line 171, so size and capacity are untouched and
the old cells are damaged only per `damagedCells`.  The `Except` value
carries the state on both outcomes; `Except.error` is the exception
propagating to the caller. -/
def reserveF (c : Caps) (v : VecC α) (k : Nat) :
    Option Nat → Except (VecC α) (VecC α)
  | none => if k ≤ v.capacity then Except.ok v else Except.ok ⟨v.cells, k⟩
  | some j =>
    if k ≤ v.capacity then Except.ok v
    else if relocCanFail c = true ∧ j < v.cells.length then
      Except.error ⟨damagedCells c v.cells j, v.capacity⟩
    else Except.ok ⟨v.cells, k⟩

/-- Exception-instrumented PushBack/EmplaceBack (lines 188-228 and
239-260; the three bodies follow the same algorithm).  In the growth
branch the fallible element operations are: op 0, constructing the new
element at slot `size_` of the new block (lines 193, 214, 245) — on
failure nothing in the old buffer has been touched; op `j + 1`, the
relocation of element `j` into the new block (lines 195-200 and twins)
— on failure the new block is discarded before the swap of line 201,
so size and capacity are untouched and the old cells are damaged only
per `damagedCells`.  In the non-growth branch the single fallible
operation is the construction into the free slot (line 205), which on
failure leaves the vector unchanged (`++size_` is not reached). -/
def pushBackF (c : Caps) (v : VecC α) (x : α) :
    Option Nat → Except (VecC α) (VecC α)
  | none =>
    if v.cells.length = v.capacity then
      Except.ok ⟨v.cells ++ [Cell.val x],
        if v.cells.length = 0 then 1 else v.cells.length * 2⟩
    else Except.ok ⟨v.cells ++ [Cell.val x], v.capacity⟩
  | some 0 => Except.error v
  | some (j + 1) =>
    if v.cells.length = v.capacity then
      if relocCanFail c = true ∧ j < v.cells.length then
        Except.error ⟨damagedCells c v.cells j, v.capacity⟩
      else
        Except.ok ⟨v.cells ++ [Cell.val x],
          if v.cells.length = 0 then 1 else v.cells.length * 2⟩
    else Except.ok ⟨v.cells ++ [Cell.val x], v.capacity⟩

/-- C1 counterexample: for a move-only element type whose move
constructor may throw (not copy-constructible, move not declared
noexcept) — the one capability combination in which the growth paths
relocate by a throwing move — a failure while relocating element 1
of a full two-element vector during `Reserve 3` propagates but leaves
element 0 moved-from: the original contents are not restored, so the
claim's strong guarantee does not hold for every element type. -/
theorem strong_guarantee_cex :
    reserveF ⟨false, false, true, true⟩
        (⟨[Cell.val 0, Cell.val 1], 2⟩ : VecC Nat) 3 (some 1) =
      Except.error ⟨[Cell.movedFrom, Cell.val 1], 2⟩ ∧
    (⟨[Cell.movedFrom, Cell.val 1], 2⟩ : VecC Nat) ≠ ⟨[Cell.val 0, Cell.val 1], 2⟩ :=
  ⟨rfl, by decide⟩

/-- C1 amended: for every element type that is copy-constructible or
has non-throwing move construction (all types except move-only ones
with a potentially-throwing move constructor), an elementwise
construction or relocation failure during Reserve or during
PushBack/EmplaceBack (growth-triggered or not) leaves the original
vector unchanged in size, capacity and contents, and the failure
propagates to the caller (the `Except.error` outcome). -/
theorem strong_guarantee_amended (c : Caps)
    (hc : c.copyCtorable = true ∨ c.nothrowMoveCtor = true)
    (v : VecC Nat) (k : Nat) (x : Nat) (failAt : Option Nat) (e : VecC Nat) :
    (reserveF c v k failAt = Except.error e → e = v) ∧
    (pushBackF c v x failAt = Except.error e → e = v) := by
  have hkey : relocCanFail c = false ∨
      ∀ (cells : List (Cell Nat)) (j : Nat), damagedCells c cells j = cells := by
    by_cases hm : c.nothrowMoveCtor = true
    · left
      simp [relocCanFail, relocUsesMove, hm]
    · right
      intro cells j
      have hcopy : c.copyCtorable = true := by
        rcases hc with h | h
        · exact h
        · exact absurd h hm
      have hmv : relocUsesMove c = false := by
        simp [relocUsesMove, hcopy, Bool.not_eq_true _ ▸ Bool.of_not_eq_true hm]
      simp [damagedCells, hmv]
  constructor
  · intro herr
    cases failAt with
    | none =>
      simp only [reserveF] at herr
      split at herr <;> simp at herr
    | some j =>
      simp only [reserveF] at herr
      split at herr
      · simp at herr
      · split at herr
        · rename_i hcond
          simp only [Except.error.injEq] at herr
          subst herr
          rcases hkey with hk | hk
          · rw [hk] at hcond
            simp at hcond
          · rw [hk]
        · simp at herr
  · intro herr
    cases failAt with
    | none =>
      simp only [pushBackF] at herr
      split at herr <;> simp at herr
    | some j =>
      cases j with
      | zero =>
        simp only [pushBackF] at herr
        simp only [Except.error.injEq] at herr
        exact herr.symm
      | succ j =>
        simp only [pushBackF] at herr
        split at herr
        · split at herr
          · rename_i hcond
            simp only [Except.error.injEq] at herr
            subst herr
            rcases hkey with hk | hk
            · rw [hk] at hcond
              simp at hcond
            · rw [hk]
          · simp at herr
        · simp at herr

/-- Witness for `strong_guarantee_amended`: a copy-constructible type
with a throwing move, a full two-element vector, and a failure at the
first fallible operation of `Reserve 3`; the failing run propagates
the error with the state unchanged. -/
theorem strong_guarantee_amended_witness :
    (⟨[Cell.val 0, Cell.val 1], 2⟩ : VecC Nat) = ⟨[Cell.val 0, Cell.val 1], 2⟩ ∧
    reserveF ⟨false, true, false, true⟩
        (⟨[Cell.val 0, Cell.val 1], 2⟩ : VecC Nat) 3 (some 0) =
      Except.error ⟨[Cell.val 0, Cell.val 1], 2⟩ :=
  ⟨(strong_guarantee_amended ⟨false, true, false, true⟩ (Or.inl rfl)
      ⟨[Cell.val 0, Cell.val 1], 2⟩ 3 9 (some 0) ⟨[Cell.val 0, Cell.val 1], 2⟩).1 rfl,
   rfl⟩

/-- Raw-memory heap for the storage-independence analysis: all blocks
handed out by `RawMemory::Allocate` (lines 60-62), indexed by
allocation order.  A fresh allocation appends a block: `operator new`
never returns a block that is still owned. -/
structure Mem (α : Type) where
  bufs : List (List α)
deriving DecidableEq

/-- Contents of block `b`. -/
def Mem.buf (m : Mem α) (b : Nat) : List α := (m.bufs[b]?).getD []

/-- Allocation of a fresh block, pre-filled with `content` (the
placement constructions the modelled operation performs right after
allocating). -/
def Mem.alloc (m : Mem α) (content : List α) : Mem α × Nat :=
  (⟨m.bufs ++ [content]⟩, m.bufs.length)

/-- A `Vector<T>` as a reference into raw memory: the block
`data_.buffer_` points to, `size_`, and `data_.capacity_`. -/
structure VecR where
  buf : Nat
  size : Nat
  capacity : Nat
deriving DecidableEq

/-- The live element sequence of `v`: the first `size_` slots of its
block. -/
def VecR.read (m : Mem α) (v : VecR) : List α := (Mem.buf m v.buf).take v.size

/-- A well-formed vector reference: its block exists, has exactly
`capacity_` slots, and `size_ ≤ capacity_`. -/
def VecR.valid (m : Mem α) (v : VecR) : Prop :=
  v.buf < m.bufs.length ∧ (Mem.buf m v.buf).length = v.capacity ∧ v.size ≤ v.capacity

/-- Mutating one element through `operator[]` (lines 117-120):
replaces slot `i` of v's block. -/
def writeElem (m : Mem α) (v : VecR) (i : Nat) (x : α) : Mem α :=
  ⟨m.bufs.set v.buf ((Mem.buf m v.buf).set i x)⟩

/-- Copy constructor in the memory model (lines 89-99): allocates a
fresh block of `other.size_` slots, relocates the `size_` source
elements into it in order, and owns it with
`size = capacity = src.size`. -/
def copyConstructR (m : Mem α) (src : VecR) : Mem α × VecR :=
  ((m.alloc (VecR.read m src)).1, ⟨(m.alloc (VecR.read m src)).2, src.size, src.size⟩)

/-- A write through a vector whose block is different leaves a read
unchanged. -/
theorem read_writeElem_other (m : Mem α) (v w : VecR) (i : Nat) (x : α)
    (h : v.buf ≠ w.buf) : VecR.read (writeElem m v i x) w = VecR.read m w := by
  show (Mem.buf (writeElem m v i x) w.buf).take w.size = (Mem.buf m w.buf).take w.size
  have hbuf : Mem.buf (writeElem m v i x) w.buf = Mem.buf m w.buf := by
    show ((m.bufs.set v.buf ((Mem.buf m v.buf).set i x))[w.buf]?).getD [] =
      (m.bufs[w.buf]?).getD []
    rw [List.getElem?_set_ne h]
  rw [hbuf]

/-- C4: CopyConstruct yields a deep copy: the new instance has
`size = capacity = src.size`, reads back exactly src's elements in
order, leaves src unchanged, and is storage-independent: it owns a
distinct block, and a write of any element through either instance
never changes what the other reads. -/
theorem copyConstruct_deep_copy (m : Mem Nat) (src : VecR) (i x : Nat)
    (h : VecR.valid m src) :
    (copyConstructR m src).2.size = src.size ∧
    (copyConstructR m src).2.capacity = src.size ∧
    VecR.read (copyConstructR m src).1 (copyConstructR m src).2 = VecR.read m src ∧
    VecR.read (copyConstructR m src).1 src = VecR.read m src ∧
    (copyConstructR m src).2.buf ≠ src.buf ∧
    VecR.read (writeElem (copyConstructR m src).1 (copyConstructR m src).2 i x) src =
      VecR.read (copyConstructR m src).1 src ∧
    VecR.read (writeElem (copyConstructR m src).1 src i x) (copyConstructR m src).2 =
      VecR.read (copyConstructR m src).1 (copyConstructR m src).2 := by
  obtain ⟨hb, hcap, hsz⟩ := h
  have hbufsrc : Mem.buf (copyConstructR m src).1 src.buf = Mem.buf m src.buf := by
    show ((m.bufs ++ [VecR.read m src])[src.buf]?).getD [] = (m.bufs[src.buf]?).getD []
    rw [List.getElem?_append_left hb]
  have hbufc : Mem.buf (copyConstructR m src).1 m.bufs.length = VecR.read m src := by
    show ((m.bufs ++ [VecR.read m src])[m.bufs.length]?).getD [] = VecR.read m src
    rw [List.getElem?_concat_length]
    rfl
  have hreadlen : (VecR.read m src).length = src.size := by
    show ((Mem.buf m src.buf).take src.size).length = src.size
    rw [List.length_take]
    omega
  have hreadsrc : VecR.read (copyConstructR m src).1 src = VecR.read m src := by
    show (Mem.buf (copyConstructR m src).1 src.buf).take src.size =
      (Mem.buf m src.buf).take src.size
    rw [hbufsrc]
  have hreadc : VecR.read (copyConstructR m src).1 (copyConstructR m src).2 =
      VecR.read m src := by
    show (Mem.buf (copyConstructR m src).1 m.bufs.length).take src.size = VecR.read m src
    rw [hbufc]
    exact List.take_of_length_le (Nat.le_of_eq hreadlen)
  have hne : (copyConstructR m src).2.buf ≠ src.buf := by
    show m.bufs.length ≠ src.buf
    omega
  refine ⟨rfl, rfl, hreadc, hreadsrc, hne, ?_, ?_⟩
  · rw [read_writeElem_other _ _ _ _ _ (show m.bufs.length ≠ src.buf by omega)]
  · rw [read_writeElem_other _ _ _ _ _ (show src.buf ≠ m.bufs.length by omega)]

/-- Witness for `copyConstruct_deep_copy`: a heap with one block
`[4, 5]` fully owned by `src`, writing 9 at index 0. -/
theorem copyConstruct_deep_copy_witness :
    (copyConstructR ⟨[[4, 5]]⟩ ⟨0, 2, 2⟩).2.size = 2 ∧
    (copyConstructR ⟨[[4, 5]]⟩ ⟨0, 2, 2⟩).2.capacity = 2 ∧
    VecR.read (copyConstructR ⟨[[4, 5]]⟩ ⟨0, 2, 2⟩).1 (copyConstructR ⟨[[4, 5]]⟩ ⟨0, 2, 2⟩).2 =
      VecR.read (⟨[[4, 5]]⟩ : Mem Nat) ⟨0, 2, 2⟩ ∧
    VecR.read (copyConstructR ⟨[[4, 5]]⟩ ⟨0, 2, 2⟩).1 ⟨0, 2, 2⟩ =
      VecR.read (⟨[[4, 5]]⟩ : Mem Nat) ⟨0, 2, 2⟩ ∧
    (copyConstructR ⟨[[4, 5]]⟩ ⟨0, 2, 2⟩).2.buf ≠ VecR.buf ⟨0, 2, 2⟩ ∧
    VecR.read
        (writeElem (copyConstructR ⟨[[4, 5]]⟩ ⟨0, 2, 2⟩).1
          (copyConstructR ⟨[[4, 5]]⟩ ⟨0, 2, 2⟩).2 0 9) ⟨0, 2, 2⟩ =
      VecR.read (copyConstructR ⟨[[4, 5]]⟩ ⟨0, 2, 2⟩).1 ⟨0, 2, 2⟩ ∧
    VecR.read (writeElem (copyConstructR ⟨[[4, 5]]⟩ ⟨0, 2, 2⟩).1 ⟨0, 2, 2⟩ 0 9)
        (copyConstructR ⟨[[4, 5]]⟩ ⟨0, 2, 2⟩).2 =
      VecR.read (copyConstructR ⟨[[4, 5]]⟩ ⟨0, 2, 2⟩).1 (copyConstructR ⟨[[4, 5]]⟩ ⟨0, 2, 2⟩).2 :=
  copyConstruct_deep_copy ⟨[[4, 5]]⟩ ⟨0, 2, 2⟩ 0 9 ⟨by decide, by decide, by decide⟩

end AdvVector
